import Mathlib

/-!
Verification of the bm25md library (field-aware BM25 for markdown) against its
natural-language specification.

The Go sources are shallowly embedded:

* `Field`, `Document`, `BM25Parameters`, `fieldBM25`, `Corpus` mirror the data
  model of `bm25.go`.
* Go `map` values are modelled as association lists (`List (key × value)`) when
  the key set matters, and as total functions with the Go zero-value default
  when only lookups matter (term-frequency tables return `0` for absent keys,
  exactly like Go map reads).
* Go `float64` arithmetic is modelled as exact real arithmetic (`ℝ`); `math.Log`
  becomes `Real.log`.
* Go `int` indices and limits are modelled as `ℤ`.
* The tokenizer is a pluggable interface in Go (`Tokenizer`); it is modelled as
  an arbitrary function `String → List String`.
* The concurrent search path (`searchParallel`) scores every document in a
  worker pool and collects the results through a channel in a
  scheduler-dependent order, then sorts once; the nondeterministic collection
  order is modelled by an explicit `order : List ℕ` parameter, which for a real
  execution is some permutation of `List.range documentCount`.
* `sort.Slice` (an unstable comparison sort with comparator
  `results[i].Score > results[j].Score`) is modelled by an insertion sort that
  orders by nonincreasing score; any order among equal scores is a faithful
  model since Go's sort is unstable.
-/

namespace Bm25md

/-- The markdown field kinds, from the `Field` constants of `bm25.go`. -/
inductive Field where
  | h1 | h2 | h3 | h4 | h5 | h6 | bold | italic | code | body
deriving DecidableEq

/-- `DefaultFieldWeights` from `bm25.go`, as an association list in source order. -/
def DefaultFieldWeights : List (Field × ℝ) :=
  [(Field.h1, 5.0), (Field.h2, 3.0), (Field.h3, 2.0), (Field.h4, 2.0),
   (Field.h5, 2.0), (Field.h6, 2.0), (Field.bold, 1.5), (Field.italic, 1.2),
   (Field.code, 0.8), (Field.body, 1.0)]

/-- `Document` from `bm25.go`. `Fields` models the Go `map[Field]string`: a read
of an absent key yields `""`, so the map is modelled by its (total) lookup
function. -/
structure Document where
  ID : ℤ
  Fields : Field → String
  Original : String

instance : Inhabited Document := ⟨⟨0, fun _ => "", ""⟩⟩

/-- `BM25Parameters` from `bm25.go`. -/
structure BM25Parameters where
  K1 : ℝ
  B : ℝ

/-- `DefaultBM25Parameters` from `bm25.go`. -/
def DefaultBM25Parameters : BM25Parameters := ⟨1.2, 0.75⟩

/-- `fieldBM25` from `bm25.go`. `termFrequencies` holds one term-count table
per document (a Go `map[string]int`, modelled by its lookup function);
`docFrequencies` maps each term to the number of documents containing it. -/
@[ext]
structure fieldBM25 where
  field : Field
  weight : ℝ
  params : BM25Parameters
  termFrequencies : List (String → ℕ)
  docFrequencies : String → ℕ
  docLengths : List ℕ
  avgDocLength : ℝ
  totalDocs : ℕ

/-- `newFieldBM25` from `bm25.go`: empty statistics, zero average length. -/
def newFieldBM25 (field : Field) (weight : ℝ) (params : BM25Parameters) : fieldBM25 :=
  { field := field, weight := weight, params := params,
    termFrequencies := [], docFrequencies := fun _ => 0,
    docLengths := [], avgDocLength := 0, totalDocs := 0 }

/-- `fieldBM25.addDocument` from `bm25.go`: record the token-count table,
bump the document frequency of each distinct token, append the document
length, and recompute the average length as the exact mean. -/
noncomputable def fieldBM25.addDocument (f : fieldBM25) (tokens : List String) : fieldBM25 :=
  let tf : String → ℕ := fun t => tokens.count t
  let docFreqs : String → ℕ :=
    fun t => if tokens.contains t then f.docFrequencies t + 1 else f.docFrequencies t
  let docLens := f.docLengths ++ [tokens.length]
  let total := f.totalDocs + 1
  { f with
    termFrequencies := f.termFrequencies ++ [tf],
    docFrequencies := docFreqs,
    docLengths := docLens,
    totalDocs := total,
    avgDocLength :=
      if 0 < total then ((docLens.sum : ℝ) / (total : ℝ)) else f.avgDocLength }

/-- `fieldBM25.score` from `bm25.go`: the isolated per-field diagnostic BM25
score, using the field's own `K1`/`B` parameters, multiplied by the field
weight at the end. -/
noncomputable def fieldBM25.score (f : fieldBM25) (queryTerms : List String) (docIndex : ℤ) : ℝ :=
  if docIndex < 0 ∨ (f.termFrequencies.length : ℤ) ≤ docIndex then 0
  else
    let docTF := f.termFrequencies.getD docIndex.toNat (fun _ => 0)
    let docLen : ℝ := (f.docLengths.getD docIndex.toNat 0 : ℕ)
    let s : ℝ := (queryTerms.map (fun term =>
      let tf : ℝ := (docTF term : ℕ)
      if tf = 0 then 0
      else
        let df : ℝ := (f.docFrequencies term : ℕ)
        if df = 0 then 0
        else
          let idf0 := Real.log (((f.totalDocs : ℝ) - df + 0.5) / (df + 0.5))
          let idf := if idf0 < 0 then 0 else idf0
          let normTF := tf * (f.params.K1 + 1) /
            (tf + f.params.K1 * (1 - f.params.B + f.params.B * docLen / f.avgDocLength))
          idf * normTF)).sum
    s * f.weight

/-- `Corpus` from `bm25.go`. The Go maps `fieldScorers`, `fieldWeights` and
`fieldParams` are modelled as association lists so that their key sets are
part of the state. -/
@[ext]
structure Corpus where
  documents : List Document
  fieldScorers : List (Field × fieldBM25)
  fieldWeights : List (Field × ℝ)
  params : BM25Parameters
  tokenizer : String → List String
  fieldParams : List (Field × BM25Parameters)

/-- Association-list lookup with the Go zero value `0.0` for an absent key,
modelling a Go `map[Field]float64` read. -/
def lookupW : List (Field × ℝ) → Field → ℝ
  | [], _ => 0
  | p :: rest, f => if f = p.1 then p.2 else lookupW rest f

/-- Association-list lookup for the per-field parameter overrides, modelling
the `if fieldParam, exists := c.fieldParams[field]; exists` pattern of
`buildFieldScorers`: the override if present, else the global parameters. -/
def resolveParams : List (Field × BM25Parameters) → Field → BM25Parameters → BM25Parameters
  | [], _, dflt => dflt
  | p :: rest, f, dflt => if f = p.1 then p.2 else resolveParams rest f dflt

/-- Association-list lookup of a field's scorer, modelling a read from the Go
map `c.fieldScorers`. -/
def lookupScorer : List (Field × fieldBM25) → Field → Option fieldBM25
  | [], _ => none
  | p :: rest, f => if f = p.1 then some p.2 else lookupScorer rest f

/-- `buildFieldScorers` from `bm25.go`: one scorer per entry of the weight
map, taking the per-field parameter override when present. -/
def buildFieldScorers (weights : List (Field × ℝ)) (params : BM25Parameters)
    (fieldParams : List (Field × BM25Parameters)) : List (Field × fieldBM25) :=
  weights.map (fun fw => (fw.1, newFieldBM25 fw.1 fw.2 (resolveParams fieldParams fw.1 params)))

/-- `NewCorpus` from `bm25.go`, with the functional options already resolved
into the final configuration (each `WithX` option only stores its argument
into the corresponding corpus component before `buildFieldScorers` runs). -/
def NewCorpus (weights : List (Field × ℝ)) (params : BM25Parameters)
    (fieldParams : List (Field × BM25Parameters)) (tok : String → List String) : Corpus :=
  { documents := [],
    fieldScorers := buildFieldScorers weights params fieldParams,
    fieldWeights := weights,
    params := params,
    tokenizer := tok,
    fieldParams := fieldParams }

/-- `Corpus.AddDocument` from `bm25.go`: overwrite the document's ID with the
current count, append it, and feed each configured field's tokenized content
to that field's scorer. -/
noncomputable def Corpus.AddDocument (c : Corpus) (doc : Document) : Corpus :=
  let doc' : Document := { doc with ID := (c.documents.length : ℤ) }
  { c with
    documents := c.documents ++ [doc'],
    fieldScorers := c.fieldScorers.map (fun fs =>
      (fs.1, fs.2.addDocument (c.tokenizer (doc'.Fields fs.1)))) }

/-- A corpus built through the public API: `NewCorpus` followed by a sequence
of `AddDocument` calls, one per document of `docs`. -/
noncomputable def buildCorpus (weights : List (Field × ℝ)) (params : BM25Parameters)
    (fieldParams : List (Field × BM25Parameters)) (tok : String → List String)
    (docs : List Document) : Corpus :=
  docs.foldl Corpus.AddDocument (NewCorpus weights params fieldParams tok)

/-- The combined document frequency loop of `Corpus.scoreWithTokens`
(`bm25.go` lines 483–497): the number of documents in which any field's
term-frequency table has a positive count for `term`. -/
def Corpus.termDocFreq (c : Corpus) (term : String) : ℕ :=
  (List.range c.documents.length).countP (fun i =>
    c.fieldScorers.any (fun fs =>
      decide (i < fs.2.termFrequencies.length) &&
      decide (0 < (fs.2.termFrequencies.getD i (fun _ => 0)) term)))

/-- The weighted term frequency loop of `Corpus.scoreWithTokens` (`bm25.go`
lines 507–517): the sum over field scorers of field weight times the raw
per-field term frequency in the target document, each summand guarded by the
bounds check and the `tf > 0` test exactly as in the source. -/
noncomputable def Corpus.weightedTF (c : Corpus) (term : String) (docIndex : ℕ) : ℝ :=
  (c.fieldScorers.map (fun fs =>
    if docIndex < fs.2.termFrequencies.length then
      (if 0 < (fs.2.termFrequencies.getD docIndex (fun _ => 0)) term then
        lookupW c.fieldWeights fs.1 * ((fs.2.termFrequencies.getD docIndex (fun _ => 0)) term : ℕ)
      else 0)
    else 0)).sum

/-- The per-term body of the `Corpus.scoreWithTokens` loop (`bm25.go` lines
482–527): combined document frequency, clamped IDF, weighted term frequency,
and the BM25F saturation with the fixed constant `k1 := 1.2`. -/
noncomputable def Corpus.termScore (c : Corpus) (term : String) (docIndex : ℕ) : ℝ :=
  let docFreq := c.termDocFreq term
  if docFreq = 0 then 0
  else
    let idf0 := Real.log (((c.documents.length : ℝ) - (docFreq : ℝ) + 0.5) / ((docFreq : ℝ) + 0.5))
    let idf := if idf0 < 0 then 0 else idf0
    let wtf := c.weightedTF term docIndex
    if 0 < wtf then
      let k1 : ℝ := 1.2
      idf * (wtf * (k1 + 1) / (wtf + k1))
    else 0

/-- `Corpus.scoreWithTokens` from `bm25.go`: zero for an out-of-range index or
an empty token list, otherwise the sum of `termScore` over every token of the
query (the loop `for _, term := range queryTerms`). -/
noncomputable def Corpus.scoreWithTokens (c : Corpus) (queryTerms : List String) (docIndex : ℤ) : ℝ :=
  if docIndex < 0 ∨ (c.documents.length : ℤ) ≤ docIndex then 0
  else if queryTerms.length = 0 then 0
  else (queryTerms.map (fun term => c.termScore term docIndex.toNat)).sum

/-- `Corpus.Score` from `bm25.go`: tokenize the query, then score. -/
noncomputable def Corpus.Score (c : Corpus) (query : String) (docIndex : ℤ) : ℝ :=
  c.scoreWithTokens (c.tokenizer query) docIndex

/-- `SearchResult` from `bm25.go`. -/
structure SearchResult where
  Document : Document
  Score : ℝ
  Index : ℤ

/-- One insertion step of the model of `sort.Slice(results, ...Score > ...Score)`:
place `r` before the first element with strictly smaller score. -/
noncomputable def insertDesc (r : SearchResult) : List SearchResult → List SearchResult
  | [] => [r]
  | x :: xs => if x.Score < r.Score then r :: x :: xs else x :: insertDesc r xs

/-- Model of the `sort.Slice` call of `bm25.go`: sort by nonincreasing score.
Go's `sort.Slice` is an unstable comparison sort, so any order among equal
scores is a faithful refinement. -/
noncomputable def sortByScoreDesc : List SearchResult → List SearchResult
  | [] => []
  | x :: xs => insertDesc x (sortByScoreDesc xs)

/-- The limit truncation of `searchSequential`/`searchParallel`
(`if limit > 0 && len(results) > limit { results = results[:limit] }`). -/
noncomputable def truncateResults (limit : ℤ) (results : List SearchResult) : List SearchResult :=
  if 0 < limit ∧ limit < (results.length : ℤ) then results.take limit.toNat else results

/-- The document-scoring filter shared by both search strategies: score one
document index, keep it only when the score is strictly positive. -/
noncomputable def Corpus.scoreDoc (c : Corpus) (queryTerms : List String) (i : ℕ) : Option SearchResult :=
  let score := c.scoreWithTokens queryTerms (i : ℤ)
  if 0 < score then some ⟨c.documents.getD i default, score, (i : ℤ)⟩ else none

/-- `Corpus.searchSequential` from `bm25.go`: score the documents in index
order, keep strictly positive scores, sort by score, truncate to the limit. -/
noncomputable def Corpus.searchSequential (c : Corpus) (queryTerms : List String) (limit : ℤ) :
    List SearchResult :=
  truncateResults limit (sortByScoreDesc
    ((List.range c.documents.length).filterMap (c.scoreDoc queryTerms)))

/-- `Corpus.searchParallel` from `bm25.go`: every document index is handed to
some worker and scored exactly once; the strictly positive results arrive in
a scheduler-dependent interleaving, modelled by the explicit `order`
parameter (a permutation of `List.range c.documents.length` for a real
execution); sorting and truncation happen once after all workers finish. -/
noncomputable def Corpus.searchParallel (c : Corpus) (queryTerms : List String) (limit : ℤ)
    (order : List ℕ) : List SearchResult :=
  truncateResults limit (sortByScoreDesc (order.filterMap (c.scoreDoc queryTerms)))

/-- `Corpus.Search` from `bm25.go`: tokenize (empty tokenization short-circuits
to the empty result list), then dispatch on the 100-document threshold.
`order` models the concurrent path's nondeterministic collection order and is
unused on the sequential path. -/
noncomputable def Corpus.Search (c : Corpus) (query : String) (limit : ℤ) (order : List ℕ) :
    List SearchResult :=
  let queryTerms := c.tokenizer query
  if queryTerms.length = 0 then []
  else if c.documents.length < 100 then c.searchSequential queryTerms limit
  else c.searchParallel queryTerms limit order

/-- The documents stored after adding `docs` in order, starting from insertion
position `start`: each document's ID is overwritten with its 0-based position. -/
def assignIDs : List Document → ℕ → List Document
  | [], _ => []
  | d :: rest, start => { d with ID := (start : ℤ) } :: assignIDs rest (start + 1)

/-- Closed form of the per-field statistics after indexing `docs` through
`fieldBM25.addDocument`, field by field. -/
noncomputable def scorerFor (f : Field) (w : ℝ) (p : BM25Parameters)
    (tok : String → List String) (docs : List Document) : fieldBM25 :=
  { field := f, weight := w, params := p,
    termFrequencies := docs.map (fun d => fun t => (tok (d.Fields f)).count t),
    docFrequencies := fun t => docs.countP (fun d => (tok (d.Fields f)).contains t),
    docLengths := docs.map (fun d => (tok (d.Fields f)).length),
    avgDocLength :=
      if 0 < docs.length then
        (((docs.map (fun d => (tok (d.Fields f)).length)).sum : ℝ) / (docs.length : ℝ))
      else 0,
    totalDocs := docs.length }

theorem assignIDs_length (docs : List Document) (start : ℕ) :
    (assignIDs docs start).length = docs.length := by
  induction docs generalizing start with
  | nil => rfl
  | cons d rest ih => simp [assignIDs, ih]

theorem assignIDs_append (docs : List Document) (d : Document) (start : ℕ) :
    assignIDs (docs ++ [d]) start =
      assignIDs docs start ++ [{ d with ID := ((start + docs.length : ℕ) : ℤ) }] := by
  induction docs generalizing start with
  | nil => simp [assignIDs]
  | cons e rest ih =>
      simp only [List.cons_append, assignIDs, List.append_eq, ih, List.length_cons]
      have h : start + 1 + rest.length = start + (rest.length + 1) := by omega
      rw [h]

theorem scorerFor_append (f : Field) (w : ℝ) (p : BM25Parameters)
    (tok : String → List String) (docs : List Document) (d : Document) :
    scorerFor f w p tok (docs ++ [d]) =
      (scorerFor f w p tok docs).addDocument (tok (d.Fields f)) := by
  simp only [scorerFor, fieldBM25.addDocument, List.map_append, List.map_cons, List.map_nil,
    List.length_append, List.length_map, List.length_cons, List.length_nil]
  apply fieldBM25.ext <;>
    simp [List.countP_append, List.countP_cons, Nat.succ_pos]
  funext t
  split <;> simp

theorem buildCorpus_append (ws : List (Field × ℝ)) (p : BM25Parameters)
    (fp : List (Field × BM25Parameters)) (tok : String → List String)
    (docs : List Document) (d : Document) :
    buildCorpus ws p fp tok (docs ++ [d]) = (buildCorpus ws p fp tok docs).AddDocument d := by
  simp [buildCorpus, List.foldl_append]

/-- Closed-form characterization of a corpus built through the public API:
the stored documents are the inputs with IDs reassigned to insertion order,
and every field scorer carries exactly the statistics of `scorerFor`. -/
theorem buildCorpus_closed (ws : List (Field × ℝ)) (p : BM25Parameters)
    (fp : List (Field × BM25Parameters)) (tok : String → List String) (docs : List Document) :
    buildCorpus ws p fp tok docs =
      { documents := assignIDs docs 0,
        fieldScorers := ws.map (fun fw =>
          (fw.1, scorerFor fw.1 fw.2 (resolveParams fp fw.1 p) tok docs)),
        fieldWeights := ws, params := p, tokenizer := tok, fieldParams := fp } := by
  induction docs using List.reverseRecOn with
  | nil =>
      apply Corpus.ext <;> rfl
  | append_singleton docs d ih =>
      rw [buildCorpus_append, ih]
      apply Corpus.ext <;> try rfl
      · show assignIDs docs 0 ++ [{ d with ID := ((assignIDs docs 0).length : ℤ) }] = _
        rw [assignIDs_append, assignIDs_length]
        simp
      · show (ws.map _).map _ = ws.map _
        rw [List.map_map]
        apply List.map_congr_left
        intro fw _
        simp only [Function.comp]
        refine congrArg _ ?_
        rw [scorerFor_append]

/-- Sortedness in the sense of the Go comparator
`results[i].Score > results[j].Score`: scores are nonincreasing. -/
def SortedDesc (l : List SearchResult) : Prop :=
  l.Pairwise (fun a b => b.Score ≤ a.Score)

theorem mem_insertDesc {r x : SearchResult} {l : List SearchResult} :
    x ∈ insertDesc r l ↔ x = r ∨ x ∈ l := by
  induction l with
  | nil => simp [insertDesc]
  | cons y ys ih =>
      unfold insertDesc
      split
      · simp
      · simp only [List.mem_cons, ih]
        tauto

theorem insertDesc_perm (r : SearchResult) (l : List SearchResult) :
    (insertDesc r l).Perm (r :: l) := by
  induction l with
  | nil => rfl
  | cons y ys ih =>
      unfold insertDesc
      split
      · rfl
      · exact (List.Perm.cons y ih).trans (List.Perm.swap r y ys)

theorem sortByScoreDesc_perm (l : List SearchResult) : (sortByScoreDesc l).Perm l := by
  induction l with
  | nil => rfl
  | cons y ys ih =>
      exact (insertDesc_perm y (sortByScoreDesc ys)).trans (List.Perm.cons y ih)

theorem insertDesc_sorted (r : SearchResult) {l : List SearchResult} (h : SortedDesc l) :
    SortedDesc (insertDesc r l) := by
  induction l with
  | nil => simp [insertDesc, SortedDesc]
  | cons y ys ih =>
      rcases (List.pairwise_cons.mp h) with ⟨hy, hys⟩
      unfold insertDesc
      split
      · rename_i hlt
        refine List.pairwise_cons.mpr ⟨?_, h⟩
        intro a ha
        rcases List.mem_cons.mp ha with rfl | ha
        · exact le_of_lt hlt
        · exact (hy a ha).trans (le_of_lt hlt)
      · rename_i hge
        refine List.pairwise_cons.mpr ⟨?_, ih hys⟩
        intro a ha
        rcases mem_insertDesc.mp ha with rfl | ha
        · exact not_lt.mp hge
        · exact hy a ha

theorem sortByScoreDesc_sorted (l : List SearchResult) : SortedDesc (sortByScoreDesc l) := by
  induction l with
  | nil => simp [sortByScoreDesc, SortedDesc]
  | cons y ys ih => exact insertDesc_sorted y ih

theorem truncateResults_length (limit : ℤ) (results : List SearchResult) :
    (truncateResults limit results).length =
      if 0 < limit ∧ limit < (results.length : ℤ) then limit.toNat else results.length := by
  unfold truncateResults
  split <;> rename_i h
  · simp only [List.length_take]
    omega
  · rfl

theorem truncateResults_sublist (limit : ℤ) (results : List SearchResult) :
    (truncateResults limit results).Sublist results := by
  unfold truncateResults
  split
  · exact List.take_sublist _ _
  · exact List.Sublist.refl _

theorem truncateResults_sorted (limit : ℤ) {results : List SearchResult}
    (h : SortedDesc results) : SortedDesc (truncateResults limit results) :=
  List.Pairwise.sublist (truncateResults_sublist limit results) h

/-- Raw per-field term frequency of `term` in document `i` of a field scorer:
a read of the `i`-th term-count table (`0` out of range or for an absent term,
matching Go map reads). -/
def rawTF (fs : fieldBM25) (i : ℕ) (term : String) : ℕ :=
  (fs.termFrequencies.getD i (fun _ => 0)) term

theorem card_filter_range (n : ℕ) (p : ℕ → Prop) [DecidablePred p] :
    ((Finset.range n).filter p).card = (List.range n).countP (fun i => decide (p i)) := by
  induction n with
  | zero => simp
  | succ n ih =>
      rw [Finset.range_succ, Finset.filter_insert, List.range_succ, List.countP_append]
      by_cases h : p n
      · rw [if_pos h, Finset.card_insert_of_not_mem (by simp), ih]
        simp [h]
      · rw [if_neg h, ih]
        simp [h]

/-- Spec wording (§4.4 step 2): the combined document frequency is the number
of documents in which any field shows a nonzero raw term frequency for the
term, each document counted once. -/
noncomputable def specCombinedDF (c : Corpus) (term : String) : ℕ :=
  (@Finset.filter ℕ (fun i => ∃ fs ∈ c.fieldScorers, 0 < rawTF fs.2 i term)
    (Classical.decPred _) (Finset.range c.documents.length)).card

/-- Spec wording (§4.3 / §4.4 step 3): `ln((N − df + 0.5) / (df + 0.5))`,
clamped to 0 when negative. -/
noncomputable def specIDF (n df : ℕ) : ℝ :=
  max 0 (Real.log (((n : ℝ) - (df : ℝ) + 0.5) / ((df : ℝ) + 0.5)))

/-- Spec wording (§4.4 step 4): the weighted term frequency is the sum over
fields of field weight times the raw per-field term frequency in the target
document, with no conditional guards. -/
noncomputable def specWeightedTF (c : Corpus) (term : String) (i : ℕ) : ℝ :=
  (c.fieldScorers.map (fun fs => lookupW c.fieldWeights fs.1 * (rawTF fs.2 i term : ℝ))).sum

/-- Spec wording (§4.4 step 5): when the weighted term frequency is positive,
`termScore = idf · weightedTF·(K+1) / (weightedTF + K)` with the fixed
combination constant `K = 1.2`. -/
noncomputable def specTermScore (c : Corpus) (term : String) (i : ℕ) : ℝ :=
  let wtf := specWeightedTF c term i
  if 0 < wtf then
    let K : ℝ := 1.2
    specIDF c.documents.length (specCombinedDF c term) * (wtf * (K + 1) / (wtf + K))
  else 0

theorem termDocFreq_eq_spec (c : Corpus)
    (hlen : ∀ fs ∈ c.fieldScorers, fs.2.termFrequencies.length = c.documents.length)
    (term : String) :
    c.termDocFreq term = specCombinedDF c term := by
  unfold Corpus.termDocFreq specCombinedDF
  rw [card_filter_range]
  apply List.countP_congr
  intro i hi
  simp only [List.mem_range] at hi
  rw [Bool.eq_iff_iff]
  simp only [List.any_eq_true, Bool.and_eq_true, decide_eq_true_eq, rawTF, iff_true]
  constructor
  · rintro ⟨fs, hfs, _, htf⟩
    exact ⟨fs, hfs, htf⟩
  · rintro ⟨fs, hfs, htf⟩
    exact ⟨fs, hfs, by rw [hlen fs hfs]; exact hi, htf⟩

theorem weightedTF_eq_spec (c : Corpus)
    (hlen : ∀ fs ∈ c.fieldScorers, fs.2.termFrequencies.length = c.documents.length)
    (term : String) (i : ℕ) (hi : i < c.documents.length) :
    c.weightedTF term i = specWeightedTF c term i := by
  unfold Corpus.weightedTF specWeightedTF
  congr 1
  apply List.map_congr_left
  intro fs hfs
  rw [if_pos (by rw [hlen fs hfs]; exact hi)]
  unfold rawTF
  by_cases h : 0 < (fs.2.termFrequencies.getD i (fun _ => 0)) term
  · rw [if_pos h]
  · rw [if_neg h]
    have h0 : (fs.2.termFrequencies.getD i (fun _ => 0)) term = 0 := by omega
    rw [h0]
    simp

theorem weightedTF_nonneg_of_df_zero (c : Corpus)
    (hlen : ∀ fs ∈ c.fieldScorers, fs.2.termFrequencies.length = c.documents.length)
    (term : String) (i : ℕ) (hi : i < c.documents.length)
    (hdf : c.termDocFreq term = 0) :
    c.weightedTF term i = 0 := by
  unfold Corpus.termDocFreq at hdf
  rw [List.countP_eq_zero] at hdf
  have hp := hdf i (List.mem_range.mpr hi)
  simp only [List.any_eq_true, Bool.and_eq_true, decide_eq_true_eq, not_exists] at hp
  unfold Corpus.weightedTF
  have : ∀ fs ∈ c.fieldScorers,
      (if i < fs.2.termFrequencies.length then
        (if 0 < (fs.2.termFrequencies.getD i (fun _ => 0)) term then
          lookupW c.fieldWeights fs.1 * ((fs.2.termFrequencies.getD i (fun _ => 0)) term : ℕ)
        else 0)
      else 0) = (0 : ℝ) := by
    intro fs hfs
    rw [if_pos (by rw [hlen fs hfs]; exact hi)]
    rw [if_neg ?_]
    intro htf
    exact (hp fs) ⟨hfs, by rw [hlen fs hfs]; exact hi, htf⟩
  rw [List.map_congr_left this]
  simp

theorem termScore_eq_spec (c : Corpus)
    (hlen : ∀ fs ∈ c.fieldScorers, fs.2.termFrequencies.length = c.documents.length)
    (term : String) (i : ℕ) (hi : i < c.documents.length) :
    c.termScore term i = specTermScore c term i := by
  unfold Corpus.termScore specTermScore
  by_cases hdf : c.termDocFreq term = 0
  · rw [if_pos hdf]
    rw [← weightedTF_eq_spec c hlen term i hi,
      weightedTF_nonneg_of_df_zero c hlen term i hi hdf]
    simp
  · rw [if_neg hdf, ← weightedTF_eq_spec c hlen term i hi,
      ← termDocFreq_eq_spec c hlen term, specIDF]
    have hmax : (if Real.log (((c.documents.length : ℝ) - (c.termDocFreq term : ℝ) + 0.5) /
          ((c.termDocFreq term : ℝ) + 0.5)) < 0 then (0 : ℝ)
        else Real.log (((c.documents.length : ℝ) - (c.termDocFreq term : ℝ) + 0.5) /
          ((c.termDocFreq term : ℝ) + 0.5))) =
        max 0 (Real.log (((c.documents.length : ℝ) - (c.termDocFreq term : ℝ) + 0.5) /
          ((c.termDocFreq term : ℝ) + 0.5))) := by
      rcases lt_or_le (Real.log (((c.documents.length : ℝ) - (c.termDocFreq term : ℝ) + 0.5) /
          ((c.termDocFreq term : ℝ) + 0.5))) 0 with h | h
      · simp [h, le_of_lt h]
      · simp [not_lt.mpr h, max_eq_right h]
    simp only [hmax]

theorem buildCorpus_documents_length (ws : List (Field × ℝ)) (p : BM25Parameters)
    (fp : List (Field × BM25Parameters)) (tok : String → List String) (docs : List Document) :
    (buildCorpus ws p fp tok docs).documents.length = docs.length := by
  rw [buildCorpus_closed]
  exact assignIDs_length docs 0

theorem buildCorpus_scorers_length (ws : List (Field × ℝ)) (p : BM25Parameters)
    (fp : List (Field × BM25Parameters)) (tok : String → List String) (docs : List Document) :
    ∀ fs ∈ (buildCorpus ws p fp tok docs).fieldScorers,
      fs.2.termFrequencies.length = (buildCorpus ws p fp tok docs).documents.length := by
  rw [buildCorpus_closed]
  intro fs hfs
  simp only [List.mem_map] at hfs
  obtain ⟨fw, _, rfl⟩ := hfs
  simp [scorerFor, assignIDs_length]

theorem any_map_general {α β : Type} (f : α → β) (l : List α) (p : β → Bool) :
    (l.map f).any p = l.any (fun a => p (f a)) := by
  induction l with
  | nil => rfl
  | cons x xs ih => simp only [List.map_cons, List.any_cons, ih]

theorem termScore_params_indep (ws : List (Field × ℝ)) (p p' : BM25Parameters)
    (fp fp' : List (Field × BM25Parameters)) (tok : String → List String)
    (docs : List Document) (term : String) (i : ℕ) :
    (buildCorpus ws p fp tok docs).termScore term i =
      (buildCorpus ws p' fp' tok docs).termScore term i := by
  rw [buildCorpus_closed, buildCorpus_closed]
  unfold Corpus.termScore Corpus.termDocFreq Corpus.weightedTF
  simp only [any_map_general, List.map_map, Function.comp_def, scorerFor]

/-- C3: on every corpus built through the public API, the combined BM25F term
score follows the spec: document frequency counts each document once when any
field holds the term, the weighted term frequency is the weight-scaled sum of
raw per-field frequencies applied before saturation, the positive-weighted-TF
branch is `idf · wtf·(K+1)/(wtf+K)` with the fixed `K = 1.2`, and the result
is independent of the configured global and per-field `k1`/`b` parameters. -/
theorem claim_C3_bm25f_formula (ws : List (Field × ℝ)) (p p' : BM25Parameters)
    (fp fp' : List (Field × BM25Parameters)) (tok : String → List String)
    (docs : List Document) (term : String) (i : ℕ) (hi : i < docs.length) :
    (buildCorpus ws p fp tok docs).termDocFreq term =
      specCombinedDF (buildCorpus ws p fp tok docs) term
    ∧ (buildCorpus ws p fp tok docs).weightedTF term i =
      specWeightedTF (buildCorpus ws p fp tok docs) term i
    ∧ (buildCorpus ws p fp tok docs).termScore term i =
      specTermScore (buildCorpus ws p fp tok docs) term i
    ∧ (buildCorpus ws p fp tok docs).termScore term i =
      (buildCorpus ws p' fp' tok docs).termScore term i := by
  have hlen := buildCorpus_scorers_length ws p fp tok docs
  have hi' : i < (buildCorpus ws p fp tok docs).documents.length := by
    rw [buildCorpus_documents_length]; exact hi
  exact ⟨termDocFreq_eq_spec _ hlen term,
    weightedTF_eq_spec _ hlen term i hi',
    termScore_eq_spec _ hlen term i hi',
    termScore_params_indep ws p p' fp fp' tok docs term i⟩

/-- C5: the score is 0 whenever the query tokenizes to nothing or the document
index is out of range; in this pure model `Score` returns only a value and
cannot mutate the corpus, matching the read-only Go method. -/
theorem claim_C5_zero_on_empty_or_invalid (c : Corpus) (query : String) (i : ℤ)
    (h : c.tokenizer query = [] ∨ i < 0 ∨ (c.documents.length : ℤ) ≤ i) :
    c.Score query i = 0 := by
  unfold Corpus.Score Corpus.scoreWithTokens
  by_cases hidx : i < 0 ∨ (c.documents.length : ℤ) ≤ i
  · rw [if_pos hidx]
  · rw [if_neg hidx]
    have hq : c.tokenizer query = [] := by tauto
    rw [hq]
    simp

theorem termScore_nonneg (c : Corpus) (term : String) (j : ℕ) : 0 ≤ c.termScore term j := by
  unfold Corpus.termScore
  by_cases hdf : c.termDocFreq term = 0
  · rw [if_pos hdf]
  · rw [if_neg hdf]
    by_cases hw : 0 < c.weightedTF term j
    · rw [if_pos hw]
      apply mul_nonneg
      · split
        · exact le_refl 0
        · rename_i h
          exact not_lt.mp h
      · apply div_nonneg
        · positivity
        · positivity
    · rw [if_neg hw]

/-- C6: every combined score is nonnegative; each per-term contribution is
nonnegative because a negative IDF is clamped to 0 before it multiplies the
positive saturated term frequency. -/
theorem claim_C6_score_nonneg (c : Corpus) (query : String) (i : ℤ) :
    0 ≤ c.Score query i ∧ ∀ term j, 0 ≤ c.termScore term j := by
  refine ⟨?_, fun term j => termScore_nonneg c term j⟩
  unfold Corpus.Score Corpus.scoreWithTokens
  split
  · exact le_refl 0
  · split
    · exact le_refl 0
    · apply List.sum_nonneg
      intro x hx
      simp only [List.mem_map] at hx
      obtain ⟨term, _, rfl⟩ := hx
      exact termScore_nonneg c term i.toNat

theorem length_filterMap_eq_countP {α β : Type} (f : α → Option β) (l : List α) :
    (l.filterMap f).length = l.countP (fun a => (f a).isSome) := by
  induction l with
  | nil => rfl
  | cons x xs ih =>
      rw [List.filterMap_cons, List.countP_cons]
      cases hx : f x <;> simp [hx, ih]

theorem sortedDesc_perm_score_eq {l₁ l₂ : List SearchResult} (h : l₁.Perm l₂)
    (s₁ : SortedDesc l₁) (s₂ : SortedDesc l₂) :
    l₁.map SearchResult.Score = l₂.map SearchResult.Score := by
  exact @List.eq_of_perm_of_sorted ℝ (fun a b : ℝ => b ≤ a)
    ⟨fun a b h1 h2 => le_antisymm h2 h1⟩ _ _ (h.map _)
    (List.Pairwise.map _ (fun _ _ hab => hab) s₁)
    (List.Pairwise.map _ (fun _ _ hab => hab) s₂)

theorem scoreDoc_mem_pos (c : Corpus) (qs : List String) {l : List ℕ} {r : SearchResult}
    (hr : r ∈ l.filterMap (c.scoreDoc qs)) : 0 < r.Score := by
  rw [List.mem_filterMap] at hr
  obtain ⟨i, _, hi⟩ := hr
  simp only [Corpus.scoreDoc] at hi
  by_cases h : 0 < c.scoreWithTokens qs (i : ℤ)
  · rw [if_pos h] at hi
    cases hi
    exact h
  · rw [if_neg h] at hi
    cases hi

theorem scoreDoc_isSome (c : Corpus) (qs : List String) (i : ℕ) :
    (c.scoreDoc qs i).isSome = decide (0 < c.scoreWithTokens qs (i : ℤ)) := by
  simp only [Corpus.scoreDoc]
  by_cases h : 0 < c.scoreWithTokens qs (i : ℤ) <;> simp [h]

theorem scoreDoc_raw_length (c : Corpus) (qs : List String) (l : List ℕ) :
    (l.filterMap (c.scoreDoc qs)).length =
      l.countP (fun i : ℕ => decide (0 < c.scoreWithTokens qs (i : ℤ))) := by
  rw [length_filterMap_eq_countP]
  apply List.countP_congr
  intro i _
  rw [scoreDoc_isSome c qs i]

theorem searchCore_props (c : Corpus) (qs : List String) (limit : ℤ) (l : List ℕ) :
    (∀ r ∈ truncateResults limit (sortByScoreDesc (l.filterMap (c.scoreDoc qs))), 0 < r.Score)
    ∧ SortedDesc (truncateResults limit (sortByScoreDesc (l.filterMap (c.scoreDoc qs))))
    ∧ (0 < limit →
        ((truncateResults limit (sortByScoreDesc (l.filterMap (c.scoreDoc qs)))).length : ℤ) ≤ limit)
    ∧ (truncateResults limit (sortByScoreDesc (l.filterMap (c.scoreDoc qs)))).length =
        if 0 < limit then
          min limit.toNat (l.countP (fun i : ℕ => decide (0 < c.scoreWithTokens qs (i : ℤ))))
        else l.countP (fun i : ℕ => decide (0 < c.scoreWithTokens qs (i : ℤ))) := by
  have hsortlen : (sortByScoreDesc (l.filterMap (c.scoreDoc qs))).length =
      l.countP (fun i : ℕ => decide (0 < c.scoreWithTokens qs (i : ℤ))) := by
    rw [(sortByScoreDesc_perm _).length_eq, scoreDoc_raw_length]
  have hlen := truncateResults_length limit (sortByScoreDesc (l.filterMap (c.scoreDoc qs)))
  rw [hsortlen] at hlen
  refine ⟨?_, ?_, ?_, ?_⟩
  · intro r hr
    have hmem := (truncateResults_sublist limit _).mem hr
    have hmem2 := (sortByScoreDesc_perm (l.filterMap (c.scoreDoc qs))).mem_iff.mp hmem
    exact scoreDoc_mem_pos c qs hmem2
  · exact truncateResults_sorted limit (sortByScoreDesc_sorted _)
  · intro hpos
    rw [hlen]
    split <;> rename_i h
    · omega
    · omega
  · rw [hlen]
    split <;> rename_i h
    · rw [if_pos h.1]
      omega
    · by_cases hp : 0 < limit
      · rw [if_pos hp]
        omega
      · rw [if_neg hp]

theorem scoreWithTokens_of_empty (c : Corpus) (qs : List String) (hq : qs.length = 0) (i : ℤ) :
    c.scoreWithTokens qs i = 0 := by
  simp [Corpus.scoreWithTokens, hq]

/-- C7: the search contract. An empty tokenization yields the empty result
list; every returned result has a strictly positive score; results are sorted
by nonincreasing score; a positive limit bounds the result count; and (for any
collection order covering every document index exactly once) every document is
scored before truncation, so the result length is the number of
positive-scoring documents, capped by the limit. -/
theorem claim_C7_search_contract (c : Corpus) (query : String) (limit : ℤ) (order : List ℕ) :
    (c.tokenizer query = [] → c.Search query limit order = [])
    ∧ (∀ r ∈ c.Search query limit order, 0 < r.Score)
    ∧ SortedDesc (c.Search query limit order)
    ∧ (0 < limit → ((c.Search query limit order).length : ℤ) ≤ limit)
    ∧ (order.Perm (List.range c.documents.length) →
        (c.Search query limit order).length =
          if 0 < limit then
            min limit.toNat ((List.range c.documents.length).countP
              (fun i : ℕ => decide (0 < c.scoreWithTokens (c.tokenizer query) (i : ℤ))))
          else (List.range c.documents.length).countP
            (fun i : ℕ => decide (0 < c.scoreWithTokens (c.tokenizer query) (i : ℤ)))) := by
  simp only [Corpus.Search]
  by_cases hq : (c.tokenizer query).length = 0
  · rw [if_pos hq]
    have hcount : (List.range c.documents.length).countP
        (fun i : ℕ => decide (0 < c.scoreWithTokens (c.tokenizer query) (i : ℤ))) = 0 := by
      apply List.countP_eq_zero.mpr
      intro i _
      simp [scoreWithTokens_of_empty c _ hq]
    refine ⟨fun _ => rfl, by simp, by simp [SortedDesc], by intro h; simp; omega, ?_⟩
    intro _
    rw [hcount]
    simp
  · rw [if_neg hq]
    by_cases hsize : c.documents.length < 100
    · rw [if_pos hsize]
      have h := searchCore_props c (c.tokenizer query) limit (List.range c.documents.length)
      exact ⟨fun habs => absurd (by rw [habs]; rfl) hq,
        h.1, h.2.1, h.2.2.1, fun _ => h.2.2.2⟩
    · rw [if_neg hsize]
      have h := searchCore_props c (c.tokenizer query) limit order
      refine ⟨fun habs => absurd (by rw [habs]; rfl) hq, h.1, h.2.1, h.2.2.1, ?_⟩
      intro horder
      unfold Corpus.searchParallel
      rw [h.2.2.2, horder.countP_eq]

/-- C2 (amended): for every collection order of the concurrent path that covers
each document index exactly once, the sequential and the concurrent strategy
return exactly the same sorted list of scores; and whenever the limit does not
truncate (non-positive, or at least the number of positive-scoring documents),
they return the same set of (document index, score) pairs. When a positive
limit truncates inside a group of tied scores, the kept document indices may
differ between the two strategies. -/
theorem claim_C2_strategy_equivalence (c : Corpus) (qs : List String) (limit : ℤ)
    (order : List ℕ) (horder : order.Perm (List.range c.documents.length)) :
    ((c.searchSequential qs limit).map SearchResult.Score =
      (c.searchParallel qs limit order).map SearchResult.Score)
    ∧ ((limit ≤ 0 ∨
        (((List.range c.documents.length).filterMap (c.scoreDoc qs)).length : ℤ) ≤ limit) →
      ((c.searchSequential qs limit).map (fun r => (r.Index, r.Score))).Perm
        ((c.searchParallel qs limit order).map (fun r => (r.Index, r.Score)))) := by
  have hperm : (order.filterMap (c.scoreDoc qs)).Perm
      ((List.range c.documents.length).filterMap (c.scoreDoc qs)) := horder.filterMap _
  have hsortperm : (sortByScoreDesc (order.filterMap (c.scoreDoc qs))).Perm
      (sortByScoreDesc ((List.range c.documents.length).filterMap (c.scoreDoc qs))) :=
    ((sortByScoreDesc_perm _).trans hperm).trans (sortByScoreDesc_perm _).symm
  have hscores : (sortByScoreDesc ((List.range c.documents.length).filterMap
        (c.scoreDoc qs))).map SearchResult.Score =
      (sortByScoreDesc (order.filterMap (c.scoreDoc qs))).map SearchResult.Score :=
    sortedDesc_perm_score_eq hsortperm.symm (sortByScoreDesc_sorted _) (sortByScoreDesc_sorted _)
  have hlenAB : (sortByScoreDesc ((List.range c.documents.length).filterMap
        (c.scoreDoc qs))).length = (sortByScoreDesc (order.filterMap (c.scoreDoc qs))).length := by
    rw [hsortperm.symm.length_eq]
  constructor
  · unfold Corpus.searchSequential Corpus.searchParallel truncateResults
    rw [← hlenAB]
    by_cases hc : 0 < limit ∧ limit < ((sortByScoreDesc
        ((List.range c.documents.length).filterMap (c.scoreDoc qs))).length : ℤ)
    · rw [if_pos hc, if_pos hc, List.map_take, List.map_take, hscores]
    · rw [if_neg hc, if_neg hc, hscores]
  · intro hcond
    have hAlen : (sortByScoreDesc ((List.range c.documents.length).filterMap
        (c.scoreDoc qs))).length =
        ((List.range c.documents.length).filterMap (c.scoreDoc qs)).length :=
      (sortByScoreDesc_perm _).length_eq
    have hnc : ¬(0 < limit ∧ limit < ((sortByScoreDesc
        ((List.range c.documents.length).filterMap (c.scoreDoc qs))).length : ℤ)) := by
      rcases hcond with h | h
      · rintro ⟨h1, _⟩
        omega
      · rintro ⟨_, h2⟩
        rw [hAlen] at h2
        omega
    unfold Corpus.searchSequential Corpus.searchParallel truncateResults
    rw [if_neg hnc, if_neg (by rw [← hlenAB]; exact hnc)]
    exact hsortperm.symm.map _

/-- A small concrete tokenizer used for the concrete corpora below (the Go
tokenizer is a pluggable interface; this one is a legal instantiation). -/
def tokC : String → List String :=
  fun s =>
    if s = "cat" then ["cat"]
    else if s = "bat" then ["bat"]
    else if s = "dog" then ["dog"]
    else if s = "cat cat" then ["cat", "cat"]
    else if s = "cat bat" then ["cat", "bat"]
    else []

/-- A document whose body field is `s`. -/
def docC (s : String) : Document :=
  ⟨0, fun f => if f = Field.body then s else "", s⟩

/-- Three concrete documents: bodies "cat", "bat", "dog". -/
def docsC : List Document := [docC "cat", docC "bat", docC "dog"]

/-- A concrete corpus, built through the public API with a single configured
field (body, weight 1). -/
noncomputable def corpusC : Corpus :=
  buildCorpus [(Field.body, 1)] DefaultBM25Parameters [] tokC docsC

theorem corpusC_weightedTF_cat0 : corpusC.weightedTF "cat" 0 = 1 := by
  rw [corpusC, buildCorpus_closed]
  norm_num +decide [Corpus.weightedTF, scorerFor, docsC, docC, tokC, lookupW]

theorem corpusC_termScore_cat0 : corpusC.termScore "cat" 0 = Real.log (5 / 3) := by
  have hdf : corpusC.termDocFreq "cat" = 1 := by decide
  have hN : corpusC.documents.length = 3 := by decide
  have hw : corpusC.weightedTF "cat" 0 = 1 := corpusC_weightedTF_cat0
  have hlog : ¬ Real.log (5 / 3) < 0 := by
    apply not_lt.mpr
    apply Real.log_nonneg
    norm_num
  simp only [Corpus.termScore, hdf, hN, hw]
  norm_num
  intro h
  exact absurd h hlog

theorem termScore_of_wtf_zero (c : Corpus) (term : String) (i : ℕ)
    (h : c.weightedTF term i = 0) : c.termScore term i = 0 := by
  simp [Corpus.termScore, h]

theorem corpusC_weightedTF_bat1 : corpusC.weightedTF "bat" 1 = 1 := by
  rw [corpusC, buildCorpus_closed]
  norm_num +decide [Corpus.weightedTF, scorerFor, docsC, docC, tokC, lookupW]

theorem corpusC_weightedTF_bat0 : corpusC.weightedTF "bat" 0 = 0 := by
  rw [corpusC, buildCorpus_closed]
  norm_num +decide [Corpus.weightedTF, scorerFor, docsC, docC, tokC, lookupW]

theorem corpusC_weightedTF_cat1 : corpusC.weightedTF "cat" 1 = 0 := by
  rw [corpusC, buildCorpus_closed]
  norm_num +decide [Corpus.weightedTF, scorerFor, docsC, docC, tokC, lookupW]

theorem corpusC_weightedTF_cat2 : corpusC.weightedTF "cat" 2 = 0 := by
  rw [corpusC, buildCorpus_closed]
  norm_num +decide [Corpus.weightedTF, scorerFor, docsC, docC, tokC, lookupW]

theorem corpusC_weightedTF_bat2 : corpusC.weightedTF "bat" 2 = 0 := by
  rw [corpusC, buildCorpus_closed]
  norm_num +decide [Corpus.weightedTF, scorerFor, docsC, docC, tokC, lookupW]

theorem corpusC_termScore_bat1 : corpusC.termScore "bat" 1 = Real.log (5 / 3) := by
  have hdf : corpusC.termDocFreq "bat" = 1 := by decide
  have hN : corpusC.documents.length = 3 := by decide
  have hw : corpusC.weightedTF "bat" 1 = 1 := corpusC_weightedTF_bat1
  have hlog : ¬ Real.log (5 / 3) < 0 := by
    apply not_lt.mpr
    apply Real.log_nonneg
    norm_num
  simp only [Corpus.termScore, hdf, hN, hw]
  norm_num
  intro h
  exact absurd h hlog

theorem corpusC_s0 : corpusC.scoreWithTokens ["cat", "bat"] 0 = Real.log (5 / 3) := by
  have hN : corpusC.documents.length = 3 := by decide
  simp only [Corpus.scoreWithTokens, hN]
  norm_num [corpusC_termScore_cat0, termScore_of_wtf_zero corpusC "bat" 0 corpusC_weightedTF_bat0]

theorem corpusC_s1 : corpusC.scoreWithTokens ["cat", "bat"] 1 = Real.log (5 / 3) := by
  have hN : corpusC.documents.length = 3 := by decide
  simp only [Corpus.scoreWithTokens, hN]
  norm_num [corpusC_termScore_bat1, termScore_of_wtf_zero corpusC "cat" 1 corpusC_weightedTF_cat1]

theorem corpusC_s2 : corpusC.scoreWithTokens ["cat", "bat"] 2 = 0 := by
  have hN : corpusC.documents.length = 3 := by decide
  simp only [Corpus.scoreWithTokens, hN]
  norm_num [termScore_of_wtf_zero corpusC "cat" 2 corpusC_weightedTF_cat2,
    termScore_of_wtf_zero corpusC "bat" 2 corpusC_weightedTF_bat2,
    show ((2 : ℤ).toNat = 2) from rfl]

theorem log53_pos : 0 < Real.log (5 / 3) := Real.log_pos (by norm_num)

theorem corpusC_scoreDoc0 : corpusC.scoreDoc ["cat", "bat"] 0 =
    some ⟨corpusC.documents.getD 0 default, Real.log (5 / 3), 0⟩ := by
  simp only [Corpus.scoreDoc, Nat.cast_zero, Nat.cast_ofNat, corpusC_s0]
  rw [if_pos log53_pos]

theorem corpusC_scoreDoc1 : corpusC.scoreDoc ["cat", "bat"] 1 =
    some ⟨corpusC.documents.getD 1 default, Real.log (5 / 3), 1⟩ := by
  simp only [Corpus.scoreDoc, Nat.cast_one, corpusC_s1]
  rw [if_pos log53_pos]

theorem corpusC_scoreDoc2 : corpusC.scoreDoc ["cat", "bat"] 2 = none := by
  simp only [Corpus.scoreDoc, Nat.cast_ofNat, corpusC_s2]
  rw [if_neg (lt_irrefl 0)]

theorem corpusC_range : List.range corpusC.documents.length = [0, 1, 2] := by
  have hN : corpusC.documents.length = 3 := by decide
  rw [hN]
  rfl

theorem corpusC_seq_pairs :
    (corpusC.searchSequential ["cat", "bat"] 1).map (fun r => (r.Index, r.Score)) =
      [((1 : ℤ), Real.log (5 / 3))] := by
  unfold Corpus.searchSequential
  rw [corpusC_range]
  rw [show ([0, 1, 2] : List ℕ).filterMap (corpusC.scoreDoc ["cat", "bat"]) =
      [⟨corpusC.documents.getD 0 default, Real.log (5 / 3), 0⟩,
       ⟨corpusC.documents.getD 1 default, Real.log (5 / 3), 1⟩] from by
    simp [List.filterMap_cons, corpusC_scoreDoc0, corpusC_scoreDoc1, corpusC_scoreDoc2]]
  simp only [sortByScoreDesc, insertDesc, lt_self_iff_false, if_false]
  norm_num [truncateResults]

theorem corpusC_par_pairs :
    (corpusC.searchParallel ["cat", "bat"] 1 [1, 0, 2]).map (fun r => (r.Index, r.Score)) =
      [((0 : ℤ), Real.log (5 / 3))] := by
  unfold Corpus.searchParallel
  rw [show ([1, 0, 2] : List ℕ).filterMap (corpusC.scoreDoc ["cat", "bat"]) =
      [⟨corpusC.documents.getD 1 default, Real.log (5 / 3), 1⟩,
       ⟨corpusC.documents.getD 0 default, Real.log (5 / 3), 0⟩] from by
    simp [List.filterMap_cons, corpusC_scoreDoc0, corpusC_scoreDoc1, corpusC_scoreDoc2]]
  simp only [sortByScoreDesc, insertDesc, lt_self_iff_false, if_false]
  norm_num [truncateResults]

/-- C2 counterexample: on a three-document corpus with two documents tied at
the same positive score and limit 1, the sequential strategy and the
concurrent strategy (with the collection order in which document 1's result
arrives first) return different (documentId, score) sets: truncation inside a
tie group keeps a different document. -/
theorem claim_C2_counterexample :
    ([1, 0, 2] : List ℕ).Perm (List.range corpusC.documents.length) ∧
    ¬ ((corpusC.searchSequential ["cat", "bat"] 1).map (fun r => (r.Index, r.Score))).Perm
        ((corpusC.searchParallel ["cat", "bat"] 1 [1, 0, 2]).map (fun r => (r.Index, r.Score))) := by
  constructor
  · rw [corpusC_range]
    decide
  · rw [corpusC_seq_pairs, corpusC_par_pairs]
    intro h
    have h2 := List.perm_singleton.mp h
    simp at h2

/-- C1 (amended): the combined scoring path computes one term score per token
of the tokenized query, so a term appearing with multiplicity `k` contributes
`k` times its term score: the total is the multiplicity-weighted sum over the
distinct terms. -/
theorem claim_C1_per_occurrence_scoring (c : Corpus) (qs : List String) (i : ℤ)
    (h0 : 0 ≤ i) (hn : i < (c.documents.length : ℤ)) (hne : qs ≠ []) :
    c.scoreWithTokens qs i =
      ∑ t ∈ qs.toFinset, (qs.count t : ℝ) * c.termScore t i.toNat := by
  unfold Corpus.scoreWithTokens
  rw [if_neg (by omega), if_neg (fun hl => hne (List.length_eq_zero.mp hl))]
  rw [Finset.sum_list_map_count]
  simp [nsmul_eq_mul]

theorem corpusC_tokenizer : corpusC.tokenizer = tokC := by
  rw [corpusC, buildCorpus_closed]

/-- C1 counterexample: on a concrete corpus, a query tokenizing to the same
term twice scores differently from the query with that term once: each
occurrence contributes a term score, so duplicates are not collapsed. -/
theorem claim_C1_counterexample :
    corpusC.Score "cat cat" 0 ≠ corpusC.Score "cat" 0 := by
  have hN : corpusC.documents.length = 3 := by decide
  have h1 : corpusC.Score "cat cat" 0 = Real.log (5 / 3) + Real.log (5 / 3) := by
    unfold Corpus.Score
    rw [corpusC_tokenizer, show tokC "cat cat" = ["cat", "cat"] from rfl]
    simp only [Corpus.scoreWithTokens, hN]
    norm_num [corpusC_termScore_cat0]
  have h2 : corpusC.Score "cat" 0 = Real.log (5 / 3) := by
    unfold Corpus.Score
    rw [corpusC_tokenizer, show tokC "cat" = ["cat"] from rfl]
    simp only [Corpus.scoreWithTokens, hN]
    norm_num [corpusC_termScore_cat0]
  rw [h1, h2]
  have := log53_pos
  intro h
  linarith

theorem claim_C1_witness :
    ((0 : ℤ) ≤ 0 ∧ (0 : ℤ) < (corpusC.documents.length : ℤ) ∧ (["cat", "cat"] : List String) ≠ [])
    ∧ corpusC.scoreWithTokens ["cat", "cat"] 0 =
      ∑ t ∈ (["cat", "cat"] : List String).toFinset,
        ((["cat", "cat"] : List String).count t : ℝ) * corpusC.termScore t ((0 : ℤ)).toNat :=
  ⟨⟨le_refl 0, by decide, by decide⟩,
    claim_C1_per_occurrence_scoring corpusC ["cat", "cat"] 0 (le_refl 0) (by decide) (by decide)⟩

/-- The second corpus's weight map of C4: the first corpus's map with field
`f`'s weight replaced by `w`. -/
def updateW (ws : List (Field × ℝ)) (f : Field) (w : ℝ) : List (Field × ℝ) :=
  ws.map (fun p => if f = p.1 then (p.1, w) else p)

/-- First binding of a field in a weight map, `none` when the field is not
configured (a Go map holds at most one binding per key). -/
def firstW : List (Field × ℝ) → Field → Option ℝ
  | [], _ => none
  | p :: rest, f => if f = p.1 then some p.2 else firstW rest f

theorem lookupW_eq_firstW (ws : List (Field × ℝ)) (f : Field) :
    lookupW ws f = (firstW ws f).getD 0 := by
  induction ws with
  | nil => rfl
  | cons p rest ih => by_cases h : f = p.1 <;> simp [lookupW, firstW, h, ih]

theorem firstW_updateW (ws : List (Field × ℝ)) (f : Field) (w : ℝ) :
    firstW (updateW ws f w) f = (firstW ws f).map (fun _ => w) := by
  induction ws with
  | nil => rfl
  | cons p rest ih =>
      simp only [updateW] at ih ⊢
      by_cases h : f = p.1 <;> simp [firstW, h, ih]

/-- The raw term frequency of `term` in field `f` of document `i`, read through
the field's scorer as the weighted-TF loop of `scoreWithTokens` does
(`bm25.go` lines 509–516): 0 when the field is not configured or the index is
out of the scorer's range. -/
def scorerTF (c : Corpus) (f : Field) (i : ℕ) (term : String) : ℕ :=
  match lookupScorer c.fieldScorers f with
  | none => 0
  | some fs => if i < fs.termFrequencies.length then rawTF fs i term else 0

/-- Field `f`'s additive contribution to the combined score's weighted term
frequencies over the query's terms: for each query term, the summand
`weight * tf` that the loop of `bm25.go` lines 509–516 adds for field `f`
(0 when the term does not occur in that field of the target document). -/
noncomputable def Corpus.fieldContribution (c : Corpus) (f : Field) (qs : List String) (i : ℕ) : ℝ :=
  (qs.map (fun term =>
    if 0 < scorerTF c f i term then
      lookupW c.fieldWeights f * (scorerTF c f i term : ℝ)
    else 0)).sum

theorem lookupScorer_build (ws : List (Field × ℝ)) (p : BM25Parameters)
    (fp : List (Field × BM25Parameters)) (tok : String → List String) (docs : List Document)
    (f : Field) :
    lookupScorer (buildCorpus ws p fp tok docs).fieldScorers f =
      (firstW ws f).map (fun w => scorerFor f w (resolveParams fp f p) tok docs) := by
  rw [buildCorpus_closed]
  induction ws with
  | nil => rfl
  | cons q rest ih => by_cases h : f = q.1 <;> simp [lookupScorer, firstW, h, ih]

theorem scorerTF_updateW (ws : List (Field × ℝ)) (p p' : BM25Parameters)
    (fp fp' : List (Field × BM25Parameters)) (tok : String → List String) (docs : List Document)
    (f : Field) (w' : ℝ) (i : ℕ) (term : String) :
    scorerTF (buildCorpus (updateW ws f w') p' fp' tok docs) f i term =
      scorerTF (buildCorpus ws p fp tok docs) f i term := by
  unfold scorerTF
  rw [lookupScorer_build, lookupScorer_build, firstW_updateW]
  cases hf : firstW ws f with
  | none => rfl
  | some w => simp [scorerFor, rawTF]

theorem lookupW_buildCorpus (ws : List (Field × ℝ)) (p : BM25Parameters)
    (fp : List (Field × BM25Parameters)) (tok : String → List String) (docs : List Document) :
    (buildCorpus ws p fp tok docs).fieldWeights = ws := by
  rw [buildCorpus_closed]

theorem scorerTF_pos_firstW (ws : List (Field × ℝ)) (p : BM25Parameters)
    (fp : List (Field × BM25Parameters)) (tok : String → List String) (docs : List Document)
    (f : Field) (i : ℕ) (term : String)
    (h : 0 < scorerTF (buildCorpus ws p fp tok docs) f i term) :
    ∃ w, firstW ws f = some w := by
  unfold scorerTF at h
  rw [lookupScorer_build] at h
  cases hf : firstW ws f with
  | none => rw [hf] at h; simp at h
  | some w => exact ⟨w, rfl⟩

/-- C4: build two corpora from the same documents, tokenizer, parameters and
weight map, except that field `f`'s weight is raised from `lookupW ws f` to
`w'`. Field `f`'s contribution to the combined score never decreases, and it
strictly increases when some query term occurs in field `f` of the target
document. -/
theorem claim_C4_weight_monotonicity (ws : List (Field × ℝ)) (p : BM25Parameters)
    (fp : List (Field × BM25Parameters)) (tok : String → List String) (docs : List Document)
    (f : Field) (w' : ℝ) (qs : List String) (i : ℕ)
    (hw : lookupW ws f ≤ w') :
    (buildCorpus ws p fp tok docs).fieldContribution f qs i ≤
      (buildCorpus (updateW ws f w') p fp tok docs).fieldContribution f qs i
    ∧ (lookupW ws f < w' →
        (∃ term ∈ qs, 0 < scorerTF (buildCorpus ws p fp tok docs) f i term) →
        (buildCorpus ws p fp tok docs).fieldContribution f qs i <
          (buildCorpus (updateW ws f w') p fp tok docs).fieldContribution f qs i) := by
  have hstf : ∀ term, scorerTF (buildCorpus (updateW ws f w') p fp tok docs) f i term =
      scorerTF (buildCorpus ws p fp tok docs) f i term :=
    fun term => scorerTF_updateW ws p p fp fp tok docs f w' i term
  have hc1w : (buildCorpus ws p fp tok docs).fieldWeights = ws :=
    lookupW_buildCorpus ws p fp tok docs
  have hc2w : (buildCorpus (updateW ws f w') p fp tok docs).fieldWeights = updateW ws f w' :=
    lookupW_buildCorpus _ p fp tok docs
  unfold Corpus.fieldContribution
  rw [hc1w, hc2w]
  have hpoint : ∀ term ∈ qs,
      (if 0 < scorerTF (buildCorpus ws p fp tok docs) f i term then
        lookupW ws f * (scorerTF (buildCorpus ws p fp tok docs) f i term : ℝ) else 0) ≤
      (if 0 < scorerTF (buildCorpus (updateW ws f w') p fp tok docs) f i term then
        lookupW (updateW ws f w') f *
          (scorerTF (buildCorpus (updateW ws f w') p fp tok docs) f i term : ℝ) else 0) := by
    intro term _
    rw [hstf term]
    by_cases hs : 0 < scorerTF (buildCorpus ws p fp tok docs) f i term
    · rw [if_pos hs, if_pos hs]
      apply mul_le_mul_of_nonneg_right ?_ (by positivity)
      obtain ⟨w, hwf⟩ := scorerTF_pos_firstW ws p fp tok docs f i term hs
      rw [lookupW_eq_firstW, hwf] at hw
      rw [lookupW_eq_firstW, lookupW_eq_firstW, firstW_updateW, hwf]
      simpa using hw
    · rw [if_neg hs, if_neg hs]
  constructor
  · exact List.sum_le_sum hpoint
  · rintro hlt ⟨t0, ht0q, ht0pos⟩
    apply List.sum_lt_sum _ _ hpoint
    refine ⟨t0, ht0q, ?_⟩
    rw [hstf t0, if_pos ht0pos, if_pos ht0pos]
    apply mul_lt_mul_of_pos_right ?_ (by exact_mod_cast ht0pos)
    obtain ⟨w, hwf⟩ := scorerTF_pos_firstW ws p fp tok docs f i t0 ht0pos
    rw [lookupW_eq_firstW, hwf] at hlt
    rw [lookupW_eq_firstW, lookupW_eq_firstW, firstW_updateW, hwf]
    simpa using hlt

theorem firstW_of_mem_nodup (ws : List (Field × ℝ)) (fw : Field × ℝ)
    (hnd : (ws.map Prod.fst).Nodup) (hmem : fw ∈ ws) : firstW ws fw.1 = some fw.2 := by
  induction ws with
  | nil => cases hmem
  | cons q rest ih =>
      rcases List.mem_cons.mp hmem with rfl | hmem2
      · simp [firstW]
      · simp only [List.map_cons, List.nodup_cons] at hnd
        have hne : fw.1 ≠ q.1 := by
          intro he
          exact hnd.1 (he ▸ List.mem_map_of_mem Prod.fst hmem2)
        simp [firstW, hne, ih hnd.2 hmem2]

/-- The weighted term frequency of the combined path is exactly the sum of the
per-field contributions (one per configured field), tying
`Corpus.fieldContribution` to the loop it is read from. -/
theorem weightedTF_eq_contribution_sum (ws : List (Field × ℝ)) (p : BM25Parameters)
    (fp : List (Field × BM25Parameters)) (tok : String → List String) (docs : List Document)
    (hnd : (ws.map Prod.fst).Nodup) (term : String) (i : ℕ) :
    (buildCorpus ws p fp tok docs).weightedTF term i =
      (ws.map (fun fw =>
        (buildCorpus ws p fp tok docs).fieldContribution fw.1 [term] i)).sum := by
  unfold Corpus.weightedTF Corpus.fieldContribution
  simp only [lookupW_buildCorpus, List.map_cons, List.map_nil, List.sum_cons, List.sum_nil,
    add_zero]
  conv_lhs => rw [buildCorpus_closed]
  simp only [List.map_map, Function.comp_def]
  apply congrArg List.sum
  apply List.map_congr_left
  intro fw hfw
  have hfind := firstW_of_mem_nodup ws fw hnd hfw
  have hsc : scorerTF (buildCorpus ws p fp tok docs) fw.1 i term =
      if i < docs.length then
        rawTF (scorerFor fw.1 fw.2 (resolveParams fp fw.1 p) tok docs) i term
      else 0 := by
    unfold scorerTF
    rw [lookupScorer_build, hfind]
    simp [scorerFor]
  rw [hsc]
  by_cases hi : i < docs.length
  · simp only [scorerFor, List.length_map, if_pos hi, rawTF]
  · simp only [scorerFor, List.length_map, if_neg hi, lt_irrefl, if_false]

/-- C8: after any sequence of `AddDocument` calls, the weight map and the
scorer map have identical key sets; every scorer's per-document lists have
length equal to the corpus document count; and each field's stored average
length is the exact arithmetic mean of its recorded lengths (with the
convention `0 / 0 = 0` for the freshly built empty corpus). -/
theorem claim_C8_corpus_invariants (ws : List (Field × ℝ)) (p : BM25Parameters)
    (fp : List (Field × BM25Parameters)) (tok : String → List String) (docs : List Document) :
    ((buildCorpus ws p fp tok docs).fieldScorers.map Prod.fst =
      (buildCorpus ws p fp tok docs).fieldWeights.map Prod.fst)
    ∧ ∀ fs ∈ (buildCorpus ws p fp tok docs).fieldScorers,
        fs.2.termFrequencies.length = (buildCorpus ws p fp tok docs).documents.length
        ∧ fs.2.docLengths.length = (buildCorpus ws p fp tok docs).documents.length
        ∧ fs.2.avgDocLength = (fs.2.docLengths.sum : ℝ) / (fs.2.docLengths.length : ℝ) := by
  rw [buildCorpus_closed]
  constructor
  · simp
  · intro fs hfs
    simp only [List.mem_map] at hfs
    obtain ⟨fw, _, rfl⟩ := hfs
    refine ⟨by simp [scorerFor, assignIDs_length], by simp [scorerFor, assignIDs_length], ?_⟩
    simp only [scorerFor, List.length_map]
    by_cases hd : 0 < docs.length
    · rw [if_pos hd]
    · rw [if_neg hd]
      have h0 : docs.length = 0 := by omega
      have : docs = [] := List.length_eq_zero.mp h0
      subst this
      simp

/-- C10: every stored document's ID is its 0-based insertion position,
regardless of the ID the caller supplied; documents are never removed or
mutated, so the property holds after any build sequence. -/
theorem claim_C10_ids_are_positions (ws : List (Field × ℝ)) (p : BM25Parameters)
    (fp : List (Field × BM25Parameters)) (tok : String → List String) (docs : List Document)
    (i : ℕ) (hi : i < docs.length) :
    ((buildCorpus ws p fp tok docs).documents.getD i default).ID = (i : ℤ) := by
  rw [buildCorpus_closed]
  have general : ∀ (l : List Document) (s j : ℕ), j < l.length →
      ((assignIDs l s).getD j default).ID = ((s + j : ℕ) : ℤ) := by
    intro l
    induction l with
    | nil => intro s j hj; simp at hj
    | cons d rest ih =>
        intro s j hj
        cases j with
        | zero => simp [assignIDs]
        | succ k =>
            have hk : k < rest.length := by simpa using hj
            simp only [assignIDs, List.getD_cons_succ]
            rw [ih (s + 1) k hk]
            congr 1
            omega
  have h := general docs 0 i hi
  simpa using h

/-- The configured fields: the key set of `DefaultFieldWeights`, over which
`ParseDocument` initializes its result map (`parser.go` lines 28–31). -/
def configuredFields : List Field := DefaultFieldWeights.map Prod.fst

/-- Update the value bound to field `f` in an association-list field map,
modelling a Go map write to an existing key. -/
def setFieldValue (m : List (Field × String)) (f : Field) (v : String) :
    List (Field × String) :=
  m.map (fun q => if q.1 = f then (q.1, v) else q)

/-- `strings.Join(texts, " ")`. -/
def joinSpace : List String → String
  | [] => ""
  | [s] => s
  | s :: rest => s ++ " " ++ joinSpace rest

/-- `ParseDocument` from `parser.go`. The goldmark AST and its traversal are an
external collaborator of the core; `walk` is the outcome of the `ast.Walk`
call, either the per-field text fragments collected by the visitor or a
traversal-level error. The function first keys every configured field to the
empty string; on a traversal error the entire raw input is stored verbatim
under the body field; otherwise every field with collected fragments is set to
their space-joined concatenation. It is a total function: no outcome raises. -/
def ParseDocument (content : String) (walk : Except String (Field → List String)) :
    List (Field × String) :=
  let fields := configuredFields.map (fun f => (f, ""))
  match walk with
  | .error _ => setFieldValue fields Field.body content
  | .ok fieldTexts =>
      fields.map (fun q =>
        if 0 < (fieldTexts q.1).length then (q.1, joinSpace (fieldTexts q.1)) else q)

/-- Association-list lookup in a field map. -/
def lookupField : List (Field × String) → Field → Option String
  | [], _ => none
  | q :: rest, f => if f = q.1 then some q.2 else lookupField rest f

/-- C9: for every raw input and every traversal outcome, the returned map has
exactly the configured fields as keys (each bound to a string, never absent),
and a traversal-level error degrades to the fallback in which the whole raw
input is placed verbatim into the body field; `ParseDocument` is total, so
classification never raises to its caller. -/
theorem claim_C9_parse_document_total (content : String)
    (walk : Except String (Field → List String)) :
    ((ParseDocument content walk).map Prod.fst = configuredFields)
    ∧ (∀ e, walk = Except.error e →
        lookupField (ParseDocument content walk) Field.body = some content) := by
  constructor
  · cases walk with
    | error e =>
        simp only [ParseDocument, setFieldValue, List.map_map]
        have h : (Prod.fst ∘ (fun q : Field × String =>
            if q.1 = Field.body then (q.1, content) else q) ∘ fun f : Field => (f, "")) = id := by
          funext f
          simp only [Function.comp_apply, id_eq]
          split <;> rfl
        rw [h, List.map_id]
    | ok fieldTexts =>
        simp only [ParseDocument, List.map_map]
        have h : (Prod.fst ∘ (fun q : Field × String =>
            if 0 < (fieldTexts q.1).length then (q.1, joinSpace (fieldTexts q.1)) else q) ∘
            fun f : Field => (f, "")) = id := by
          funext f
          simp only [Function.comp_apply, id_eq]
          split <;> rfl
        rw [h, List.map_id]
  · intro e he
    subst he
    simp only [ParseDocument]
    simp [configuredFields, DefaultFieldWeights, setFieldValue, lookupField]

theorem claim_C9_witness :
    (Except.error "boom" = (Except.error "boom" : Except String (Field → List String)))
    ∧ lookupField (ParseDocument "hello world" (Except.error "boom")) Field.body =
        some "hello world" :=
  ⟨rfl, (claim_C9_parse_document_total "hello world" (Except.error "boom")).2 "boom" rfl⟩

theorem claim_C2_witness :
    ([1, 0, 2] : List ℕ).Perm (List.range corpusC.documents.length)
    ∧ ((0 : ℤ) ≤ 0)
    ∧ ((corpusC.searchSequential ["cat", "bat"] 0).map (fun r => (r.Index, r.Score))).Perm
        ((corpusC.searchParallel ["cat", "bat"] 0 [1, 0, 2]).map (fun r => (r.Index, r.Score))) :=
  ⟨by rw [corpusC_range]; decide, le_refl 0,
    (claim_C2_strategy_equivalence corpusC ["cat", "bat"] 0 [1, 0, 2]
      (by rw [corpusC_range]; decide)).2 (Or.inl (le_refl 0))⟩

theorem claim_C3_witness :
    0 < docsC.length
    ∧ corpusC.termScore "cat" 0 = specTermScore corpusC "cat" 0 :=
  ⟨by decide,
    (claim_C3_bm25f_formula [(Field.body, 1)] DefaultBM25Parameters DefaultBM25Parameters
      [] [] tokC docsC "cat" 0 (by decide)).2.2.1⟩

theorem claim_C4_witness :
    (lookupW [(Field.body, 1)] Field.body ≤ 2
      ∧ lookupW [(Field.body, 1)] Field.body < 2
      ∧ 0 < scorerTF (buildCorpus [(Field.body, 1)] DefaultBM25Parameters [] tokC docsC)
          Field.body 0 "cat")
    ∧ (buildCorpus [(Field.body, 1)] DefaultBM25Parameters [] tokC docsC).fieldContribution
        Field.body ["cat"] 0 <
      (buildCorpus (updateW [(Field.body, 1)] Field.body 2) DefaultBM25Parameters []
        tokC docsC).fieldContribution Field.body ["cat"] 0 := by
  have h := claim_C4_weight_monotonicity [(Field.body, 1)] DefaultBM25Parameters [] tokC docsC
    Field.body 2 ["cat"] 0 (by norm_num [lookupW])
  exact ⟨⟨by norm_num [lookupW], by norm_num [lookupW], by decide⟩,
    h.2 (by norm_num [lookupW]) ⟨"cat", by decide, by decide⟩⟩

theorem claim_C5_witness :
    (corpusC.tokenizer "xyz" = [] ∨ (0 : ℤ) < 0 ∨ (corpusC.documents.length : ℤ) ≤ 0)
    ∧ corpusC.Score "xyz" 0 = 0 :=
  ⟨Or.inl (by rw [corpusC_tokenizer]; decide),
    claim_C5_zero_on_empty_or_invalid corpusC "xyz" 0
      (Or.inl (by rw [corpusC_tokenizer]; decide))⟩

theorem claim_C7_witness :
    (0 : ℤ) < 1 ∧ ((corpusC.Search "cat bat" 1 [0, 1, 2]).length : ℤ) ≤ 1 :=
  ⟨by norm_num,
    (claim_C7_search_contract corpusC "cat bat" 1 [0, 1, 2]).2.2.2.1 (by norm_num)⟩

theorem claim_C8_witness :
    ((Field.body, scorerFor Field.body 1 DefaultBM25Parameters tokC docsC) ∈
      corpusC.fieldScorers)
    ∧ (scorerFor Field.body 1 DefaultBM25Parameters tokC docsC).termFrequencies.length =
        corpusC.documents.length := by
  have hmem : (Field.body, scorerFor Field.body 1 DefaultBM25Parameters tokC docsC) ∈
      corpusC.fieldScorers := by
    rw [corpusC, buildCorpus_closed]
    simp [resolveParams]
  exact ⟨hmem,
    ((claim_C8_corpus_invariants [(Field.body, 1)] DefaultBM25Parameters [] tokC docsC).2
      _ hmem).1⟩

theorem claim_C10_witness :
    1 < docsC.length ∧ (corpusC.documents.getD 1 default).ID = (1 : ℤ) :=
  ⟨by decide,
    claim_C10_ids_are_positions [(Field.body, 1)] DefaultBM25Parameters [] tokC docsC 1
      (by decide)⟩

end Bm25md
